import Mathlib

/-!
Verification of the planner core of the `nova` repository
(`api/planner/views.py` and `api/planner/serializers.py`): the keyword
suggestion engine, the suggestion normalizer / external suggestion adapter,
and the weekly capacity-constrained scheduler.

The Python code is shallowly embedded:

* JSON-like request data (where the code is dynamically typed) is modelled
  by the inductive type `PyVal` of Python values, together with Python's
  truthiness, `dict.get`, and `int(...)` coercion semantics.
* Calendar dates are modelled as integer day ordinals (`Int`): the code only
  ever adds whole days to dates and compares dates, so the Gregorian layer
  of `datetime.date` is irrelevant.  Times of day are minutes from midnight.
* The standard library's `datetime.fromisoformat(...).date()` (for the
  scheduler) and the DRF `DateTimeField` input parser (for the serializer)
  are abstracted as parameters `parse : String → Option Int` mapping a
  timestamp string to the ordinal of its calendar date; every theorem that
  involves them is quantified over the parameter.
* Fallible Python operations (an `AttributeError` from calling `.strip()`
  on a non-string, a `ValueError` from `datetime.time` with an out-of-range
  hour) are modelled with `Except String`.
-/

namespace Nova

/-- Python/JSON values as they arrive in `request.data` (floats are never
needed by the verified properties and are omitted). -/
inductive PyVal where
  | null
  | bool (b : Bool)
  | int (n : Int)
  | str (s : String)
  | list (xs : List PyVal)
  | dict (fields : List (String × PyVal))
deriving Repr

/-- Python truthiness (`bool(v)`). -/
def pyTruthy : PyVal → Bool
  | .null => false
  | .bool b => b
  | .int n => n != 0
  | .str s => !s.isEmpty
  | .list xs => !xs.isEmpty
  | .dict fs => !fs.isEmpty

/-- `d.get(k)` on a dict: `PyVal.null` models Python's `None` default. -/
def dictGet (fs : List (String × PyVal)) (k : String) : PyVal :=
  match fs.find? (fun p => p.1 == k) with
  | some p => p.2
  | none => .null

/-- `d.get(k)` distinguishing an absent key (`none`) from a present one,
as a DRF serializer does when deciding whether a field was supplied. -/
def lookupField (fs : List (String × PyVal)) (k : String) : Option PyVal :=
  match fs.find? (fun p => p.1 == k) with
  | some p => some p.2
  | none => none

/-- Python `str.strip()` (also DRF's `trim_whitespace`): whitespace removed
from both ends. -/
def pyStrip (s : String) : String :=
  ⟨((s.data.dropWhile Char.isWhitespace).reverse.dropWhile
      Char.isWhitespace).reverse⟩

/-- Python `str.lower()`. -/
def pyLower (s : String) : String :=
  ⟨s.data.map Char.toLower⟩

/-- `s.replace("Z", "+00:00")`: every `Z` becomes `+00:00`. -/
def pyReplaceZ (s : String) : String :=
  ⟨s.data.foldr
    (fun c acc =>
      if c = 'Z' then '+' :: '0' :: '0' :: ':' :: '0' :: '0' :: acc
      else c :: acc)
    []⟩

/-- Digits of a decimal numeral. -/
def parseDigits (cs : List Char) : Option Nat :=
  if cs.isEmpty then none
  else
    cs.foldl
      (fun acc c =>
        acc.bind (fun n => if c.isDigit then some (n * 10 + (c.toNat - 48)) else none))
      (some 0)

/-- Python `int(s)` on a string: surrounding whitespace is stripped, an
optional sign is allowed, the rest must be decimal digits. -/
def parseIntStr (s : String) : Option Int :=
  match (pyStrip s).toList with
  | '-' :: rest => (parseDigits rest).map (fun n => -(n : Int))
  | '+' :: rest => (parseDigits rest).map (fun n => (n : Int))
  | cs => (parseDigits cs).map (fun n => (n : Int))

/-- Python `int(v)`: ints stay, booleans coerce to 0/1, strings are parsed,
everything else raises (`none` = `ValueError`/`TypeError`). -/
def pyToInt : PyVal → Option Int
  | .bool b => some (if b then 1 else 0)
  | .int n => some n
  | .str s => parseIntStr s
  | _ => none

/-! ## Keyword Suggestion Engine (`suggest_tasks_from_message`) -/

/-- `keyword_to_tasks` table, in definition order. -/
def keywordToTasks : List (String × List String) :=
  [("wedding",
    ["RSVP to the invitation", "Send a gift", "Book flights", "Book hotel",
     "Plan outfit", "Arrange transportation to venue"]),
   ("trip",
    ["Book flights", "Book accommodation", "Create itinerary",
     "Set travel budget", "Arrange travel insurance"]),
   ("birthday",
    ["Plan guest list", "Send invitations", "Order cake", "Buy decorations",
     "Choose venue"])]

/-- The fixed generic fallback list used when no keyword matches. -/
def genericFallback : List String :=
  ["Clarify the goal", "List key steps", "Set deadlines",
   "Identify required resources"]

/-- Does `needle` occur at the start of `hay`? -/
def isPrefixList : List Char → List Char → Bool
  | [], _ => true
  | _ :: _, [] => false
  | a :: as, b :: bs => a == b && isPrefixList as bs

/-- Contiguous-substring test on character lists (Python's `needle in hay`). -/
def containsSubList (needle hay : List Char) : Bool :=
  match hay with
  | [] => needle.isEmpty
  | _ :: t => isPrefixList needle hay || containsSubList needle t

/-- Python `needle in hay` on strings. -/
def strContains (hay needle : String) : Bool :=
  containsSubList needle.toList hay.toList

/-- The `tasks` list accumulated by the keyword loop of
`suggest_tasks_from_message`, before the fallback and deduplication. -/
def matchedTasks (normalized : String) : List String :=
  keywordToTasks.foldl
    (fun acc kv => if strContains normalized kv.1 then acc ++ kv.2 else acc) []

/-- The `tasks` list right before deduplication: the generic fallback is
substituted when no keyword matched. -/
def rawTasks (message : String) : List String :=
  let tasks := matchedTasks (pyLower message)
  if tasks.isEmpty then genericFallback else tasks

/-- The seen-set comprehension
`[t for t in tasks if not (t in seen or seen.add(t))]`: keep each title's
first occurrence, in order.  `seen` is the set of already-kept titles. -/
def dedupFirst : List String → List String → List String
  | _, [] => []
  | seen, t :: rest =>
    if t ∈ seen then dedupFirst seen rest
    else t :: dedupFirst (t :: seen) rest

/-- `suggest_tasks_from_message`. -/
def suggestTasksFromMessage (message : String) : List String :=
  dedupFirst [] (rawTasks message)

/-! ## Weekly Scheduler (`SchedulePreviewView.post`)

`today` is a day ordinal; the 7 candidate days are `today + i` for
`i ∈ [0..6]`.  `parse : String → Option Int` abstracts
`datetime.fromisoformat(s).date()` as the ordinal of the parsed date
(`none` = the parse raised). -/

/-- A normalized task, as built by the normalization loop of
`SchedulePreviewView.post`.  `priority` stays an arbitrary Python value:
the code only applies `or "medium"` to it and never inspects it again. -/
structure NormItem where
  title : String
  est : Int
  priority : PyVal
  due : Option Int
deriving Repr

/-- `int(estimated) if estimated is not None else None`, with the
`try/except` that turns any conversion error into `None`. -/
def estParse : PyVal → Option Int
  | .null => none
  | v => pyToInt v

/-- The due-date normalization: `due_raw = t.get("due_at")`; when truthy,
`datetime.fromisoformat(due_raw.replace("Z", "+00:00"))` inside a
`try/except` that absorbs every error (including the `AttributeError` on a
non-string) into `None`. -/
def dueParse (parse : String → Option Int) (v : PyVal) : Option Int :=
  if pyTruthy v then
    match v with
    | .str s => parse (pyReplaceZ s)
    | _ => none
  else none

/-- `estimated or 30` (Python `or`: 30 replaces a falsy value, i.e. `None`
or the integer 0). -/
def estOr30 : Option Int → Int
  | none => 30
  | some n => if n = 0 then 30 else n

/-- The normalized record built for a kept item: duration from
`estimated or 30`, priority from `t.get("priority") or "medium"`, due date
from the guarded `fromisoformat`. -/
def normItemOf (parse : String → Option Int) (fs : List (String × PyVal))
    (title : String) : NormItem :=
  ⟨title,
   estOr30 (estParse (dictGet fs "estimated_minutes")),
   (if pyTruthy (dictGet fs "priority") then dictGet fs "priority"
    else .str "medium"),
   dueParse parse (dictGet fs "due_at")⟩

/-- One iteration of the normalization loop.  `.ok none` means the item was
skipped (`continue` on a blank title); `.error` models an uncaught
exception: `t.get` on a non-dict, or `.strip()` on a truthy non-string
title — neither is inside a `try`.  `(t.get("title") or "").strip()` is the
scrutinised value: a falsy raw title collapses to `""`. -/
def normalizeTask (parse : String → Option Int) (t : PyVal) :
    Except String (Option NormItem) :=
  match t with
  | .dict fs =>
    match (if pyTruthy (dictGet fs "title") then dictGet fs "title"
           else .str "") with
    | .str s =>
      if pyStrip s = "" then .ok none
      else .ok (some (normItemOf parse fs (pyStrip s)))
    | _ => .error "AttributeError: .strip on non-string title"
  | _ => .error "AttributeError: .get on non-dict item"

/-- The whole normalization loop. -/
def normalizeTasks (parse : String → Option Int) :
    List PyVal → Except String (List NormItem)
  | [] => .ok []
  | t :: rest =>
    (normalizeTask parse t).bind fun o =>
      (normalizeTasks parse rest).map fun tail =>
        match o with
        | some item => item :: tail
        | none => tail

/-- A scheduled slot: `start`/`end` as minutes from the day's midnight
(`600` = 10:00), standing for the `isoformat()` timestamps of the response. -/
structure PlacedItem where
  title : String
  startMin : Int
  endMin : Int
  priority : PyVal
  est : Int
deriving Repr

/-- A `quick_wins` entry. -/
structure QuickWin where
  title : String
  est : Int
  priority : PyVal
deriving Repr

/-- The mutable state of one scheduling call: `day_load` and `schedule`
(indexed by day offset 0..6 instead of the date's isoformat key — the 7
keys are distinct, so the keying is isomorphic) plus `quick_wins`. -/
structure SchedState where
  load : List Int
  sched : List (List PlacedItem)
  qw : List QuickWin
deriving Repr

/-- `day_load = {..: 0}`, `schedule = {..: []}`, `quick_wins = []`. -/
def initState : SchedState :=
  ⟨List.replicate 7 0, List.replicate 7 [], []⟩

/-- The PlacedItem built for `item` on a day whose current load is `load`. -/
def mkPlaced (item : NormItem) (load : Int) : PlacedItem :=
  ⟨item.title, 600 + load, 600 + load + item.est, item.priority, item.est⟩

/-- The body of `place_task` once a day accepts the item: compute the start
slot, append to the day's schedule, bump the day's load.  The `.error`
branch models the `ValueError` raised by `datetime.time` when
`start_minutes // 60` falls outside 0..23. -/
def placeOn (item : NormItem) (st : SchedState) (i : Nat) :
    Except String SchedState :=
  let load := st.load.getD i 0
  let startMin : Int := 600 + load
  if startMin < 0 then .error "ValueError: hour out of range"
  else if 1440 ≤ startMin then .error "ValueError: hour out of range"
  else
    .ok ⟨st.load.set i (load + item.est),
         st.sched.set i (st.sched.getD i [] ++ [mkPlaced item load]),
         st.qw⟩

/-- The due-date guard of `place_task`:
`if task["due_at"] and d > task["due_at"].date(): break`. -/
def dueCut (today : Int) (item : NormItem) (i : Nat) : Bool :=
  match item.due with
  | some due => decide (today + (i : Int) > due)
  | none => false

/-- The day loop of `place_task` over the remaining day offsets. -/
def placeTaskAux (today : Int) (item : NormItem) :
    List Nat → SchedState → Except String (Bool × SchedState)
  | [], st => .ok (false, st)
  | i :: rest, st =>
    if dueCut today item i then .ok (false, st)
    else if st.load.getD i 0 + item.est ≤ 120 then
      (placeOn item st i).map (fun st' => (true, st'))
    else placeTaskAux today item rest st

/-- The 7 day offsets `week_days` is generated from. -/
def weekIdx : List Nat := [0, 1, 2, 3, 4, 5, 6]

/-- `place_task(task)`. -/
def placeTask (today : Int) (item : NormItem) (st : SchedState) :
    Except String (Bool × SchedState) :=
  placeTaskAux today item weekIdx st

/-- One iteration of the main loop: place, and on failure append to
`quick_wins`. -/
def processItem (today : Int) (st : SchedState) (item : NormItem) :
    Except String SchedState :=
  (placeTask today item st).map fun r =>
    match r with
    | (true, st') => st'
    | (false, st') => ⟨st'.load, st'.sched, st'.qw ++ [⟨item.title, item.est, item.priority⟩]⟩

/-- The main loop `for t in must_dos + others`. -/
def runItems (today : Int) : List NormItem → SchedState → Except String SchedState
  | [], st => .ok st
  | item :: rest, st => (processItem today st item).bind (runItems today rest)

/-- The must-do test:
`t["due_at"] and (t["due_at"].date() - today).days <= 14` (a datetime is
always truthy, so this is: has a due date, and it is at most 14 days out). -/
def isMustDo (today : Int) (item : NormItem) : Bool :=
  match item.due with
  | some due => decide (due - today ≤ 14)
  | none => false

/-- One day of the response. -/
structure DaySchedule where
  date : Int
  items : List PlacedItem
deriving Repr

/-- The scheduler's response body. -/
structure SchedResponse where
  week : List DaySchedule
  quick_wins : List QuickWin
deriving Repr

/-- Build the `week` payload from the final state. -/
def buildResponse (today : Int) (st : SchedState) : SchedResponse :=
  ⟨weekIdx.map (fun i => ⟨today + Int.ofNat i, st.sched.getD i []⟩), st.qw⟩

/-- `SchedulePreviewView.post`, from the `tasks` list of the request body
to the response. -/
def schedulePost (parse : String → Option Int) (today : Int)
    (tasks : List PyVal) : Except String SchedResponse :=
  (normalizeTasks parse tasks).bind fun normalized =>
    (runItems today
        (normalized.filter (isMustDo today) ++
         normalized.filter (fun t => !isMustDo today t))
        initState).map
      (buildResponse today)

/-! ## Suggestion Normalizer (`TaskSuggestionSerializer`)

The DRF field validators are modelled field by field; `dtParse` abstracts
`DateTimeField`'s datetime parsing.  In `validated_data` an absent optional
field and an explicit `null` both end up carrying no information any later
code inspects, so both are collapsed to `none` here. -/

/-- A validated task suggestion (`serializer.validated_data`).
`confidence` keeps the raw accepted numeric value (floats play no role in
any verified property). -/
structure TaskSuggestion where
  title : String
  due_at : Option Int
  notes : Option String
  tags : Option (List String)
  confidence : Option PyVal
  priority : Option String
  estimated_minutes : Option Int
  status : Option String
deriving Repr

/-- DRF `CharField.to_internal_value`: booleans are rejected, strings pass,
ints coerce via `str`; then `trim_whitespace` strips. -/
def charFieldStr : PyVal → Option String
  | .str s => some (pyStrip s)
  | .int n => some (pyStrip (toString n))
  | _ => none

/-- `title = serializers.CharField(max_length=255)`: required, not blank. -/
def vTitle : Option PyVal → Option String
  | some v =>
    match charFieldStr v with
    | some s => if s = "" then none else if 255 < s.length then none else some s
    | none => none
  | none => none

/-- `due_at = serializers.DateTimeField(required=False, allow_null=True)`. -/
def vDueAt (dtParse : String → Option Int) : Option PyVal → Option (Option Int)
  | none => some none
  | some .null => some none
  | some (.str s) => (dtParse s).map some
  | some _ => none

/-- `notes = serializers.CharField(required=False, allow_blank=True,
allow_null=True)`. -/
def vNotes : Option PyVal → Option (Option String)
  | none => some none
  | some .null => some none
  | some v => (charFieldStr v).map some

/-- `tags = serializers.ListField(child=serializers.CharField(),
required=False)`: must be a list of non-blank char values. -/
def vTags : Option PyVal → Option (Option (List String))
  | none => some none
  | some (.list xs) =>
    (xs.mapM (fun v => (charFieldStr v).bind fun s => if s = "" then none else some s)).map some
  | some _ => none

/-- `confidence = serializers.FloatField(required=False)`: accepts ints and
numeric strings, rejects booleans and `null` (no `allow_null`). -/
def vConfidence : Option PyVal → Option (Option PyVal)
  | none => some none
  | some (.int n) => some (some (.int n))
  | some (.str s) => if (parseIntStr s).isSome then some (some (.str s)) else none
  | some _ => none

/-- `priority = serializers.ChoiceField(choices=["low", "medium", "high"],
required=False, allow_null=True)`. -/
def vPriority : Option PyVal → Option (Option String)
  | none => some none
  | some .null => some none
  | some (.str s) =>
    if s = "low" ∨ s = "medium" ∨ s = "high" then some (some s) else none
  | some _ => none

/-- `estimated_minutes = serializers.IntegerField(required=False,
allow_null=True, min_value=1)`: ints or integer strings, value ≥ 1. -/
def vEstimated : Option PyVal → Option (Option Int)
  | none => some none
  | some .null => some none
  | some (.int n) => if 1 ≤ n then some (some n) else none
  | some (.str s) =>
    match parseIntStr s with
    | some n => if 1 ≤ n then some (some n) else none
    | none => none
  | some _ => none

/-- `status = serializers.ChoiceField(choices=["pending", "in_progress",
"completed"], required=False, allow_null=True)`.  The validated status is
kept like the other optional fields. -/
def vStatus : Option PyVal → Option (Option String)
  | none => some none
  | some .null => some none
  | some (.str s) =>
    if s = "pending" ∨ s = "in_progress" ∨ s = "completed" then some (some s)
    else none
  | some _ => none

/-- `TaskSuggestionSerializer(data=item); serializer.is_valid()` followed by
`serializer.validated_data`: every field must validate, else the whole
candidate is rejected (`none`). -/
def validateSuggestion (dtParse : String → Option Int) (item : PyVal) :
    Option TaskSuggestion :=
  match item with
  | .dict fs =>
    (vTitle (lookupField fs "title")).bind fun title =>
    (vDueAt dtParse (lookupField fs "due_at")).bind fun due =>
    (vNotes (lookupField fs "notes")).bind fun notes =>
    (vTags (lookupField fs "tags")).bind fun tags =>
    (vConfidence (lookupField fs "confidence")).bind fun conf =>
    (vPriority (lookupField fs "priority")).bind fun prio =>
    (vEstimated (lookupField fs "estimated_minutes")).bind fun est =>
    (vStatus (lookupField fs "status")).map fun stat =>
      ⟨title, due, notes, tags, conf, prio, est, stat⟩
  | _ => none

/-! ## External Suggestion Adapter (`_call_openai_for_suggestions`)

The effectful boundary is made explicit: `apiKey` is the configured
credential (settings and environment combined), `importOk` is whether
`from openai import OpenAI` succeeds, `call` is the outcome of the
network round-trip, and `jsonParse` abstracts `json.loads`
(`none` = the parse raised). -/

/-- Outcome of `client.chat.completions.create(...)`: either the call
raises, or it returns `completion.choices[0].message.content`
(possibly `None`). -/
inductive ModelCall where
  | raises
  | returns (content : Option String)

/-- `if not api_key:` — an unset or empty credential is falsy. -/
def credTruthy : Option String → Bool
  | none => false
  | some s => !s.isEmpty

/-- The tier-1/import-failure fallback wrap (lines 100-103 and 108-111):
full field set with `priority` defaulted to `"medium"`. -/
def wrapFull (t : String) : PyVal :=
  .dict [("title", .str t), ("due_at", .null), ("notes", .null),
         ("priority", .str "medium"), ("estimated_minutes", .null)]

/-- The tier-2 failure wrap (line 151): title, `due_at`, `notes` only. -/
def wrapMin (t : String) : PyVal :=
  .dict [("title", .str t), ("due_at", .null), ("notes", .null)]

/-- Re-encode a validated suggestion for the response payload. -/
def suggToDict (s : TaskSuggestion) : PyVal :=
  .dict [("title", .str s.title),
         ("due_at", match s.due_at with | some n => .int n | none => .null),
         ("notes", match s.notes with | some t => .str t | none => .null),
         ("priority", match s.priority with | some p => .str p | none => .null),
         ("estimated_minutes",
          match s.estimated_minutes with | some n => .int n | none => .null)]

/-- `data.get("tasks", [])` and the `for item in items:` loop.  Every path
in which the parsed payload is not a JSON object holding a list under
`"tasks"` ends with zero validated items: a non-dict payload raises
`AttributeError` on `.get` and a non-iterable `tasks` raises `TypeError`
— both land in the `except: pass` — and iterating a string or dict yields
strings, each of which the serializer rejects. -/
def parsedCandidates : Option PyVal → List PyVal
  | some (.dict fs) =>
    match dictGet fs "tasks" with
    | .list xs => xs
    | _ => []
  | _ => []

/-- `content = completion.choices[0].message.content or "{}"`: a `None` or
empty content string falls back to `"{}"`. -/
def contentOf : Option String → String
  | some s => if s.isEmpty then "{}" else s
  | none => "{}"

/-- `_call_openai_for_suggestions`. -/
def callOpenaiForSuggestions (jsonParse : String → Option PyVal)
    (dtParse : String → Option Int) (apiKey : Option String)
    (importOk : Bool) (call : ModelCall) (message : String) : List PyVal :=
  if !credTruthy apiKey then
    (suggestTasksFromMessage message).map wrapFull
  else if !importOk then
    (suggestTasksFromMessage message).map wrapFull
  else
    match call with
    | .raises => (suggestTasksFromMessage message).map wrapFull
    | .returns c =>
      let validated :=
        (parsedCandidates (jsonParse (contentOf c))).filterMap (validateSuggestion dtParse)
      if validated.isEmpty then (suggestTasksFromMessage message).map wrapMin
      else validated.map suggToDict

/-! ## Predicates used by the theorems -/

/-- Total task minutes of a day's placed items. -/
def sumEst (items : List PlacedItem) : Int := (items.map PlacedItem.est).sum

/-- The items of one day are chained: starting from accumulated load `acc`,
each item starts at 10:00 (= minute 600) plus the day's load at its
placement time, and ends at its start plus its duration. -/
def ChainedFrom : Int → List PlacedItem → Prop
  | _, [] => True
  | acc, p :: rest =>
    p.startMin = 600 + acc ∧ p.endMin = p.startMin + p.est ∧
    ChainedFrom (acc + p.est) rest

/-- The scheduling-state invariant: 7 tracked days; each day's load equals
the total minutes of its placed items, never exceeds the 120-minute budget,
and the day's items are chained starting from load 0. -/
def StInv (st : SchedState) : Prop :=
  st.load.length = 7 ∧ st.sched.length = 7 ∧
  ∀ i, i < 7 →
    st.load.getD i 0 = sumEst (st.sched.getD i []) ∧
    st.load.getD i 0 ≤ 120 ∧
    ChainedFrom 0 (st.sched.getD i [])

/-- All day loads are nonnegative (so every computed start minute is a
legal time of day). -/
def NonnegSt (st : SchedState) : Prop :=
  ∀ i, 0 ≤ st.load.getD i 0

/-- A request item the scheduler cannot raise on: a JSON object whose
`title`, when truthy, is a string, and whose `estimated_minutes`, when it
parses to an integer at all, is nonnegative. -/
def SafeItem (t : PyVal) : Prop :=
  ∃ fs, t = PyVal.dict fs ∧
    (pyTruthy (dictGet fs "title") = true →
      ∃ s, dictGet fs "title" = PyVal.str s) ∧
    (∀ n, estParse (dictGet fs "estimated_minutes") = some n → 0 ≤ n)

/-! ## Validity predicates used by the theorems -/

/-- An `estimated_minutes` value the serializer must reject: present, not
`null`, and not reducible to an integer ≥ 1 (covers wrong types, unparsable
strings, zero and negative values). -/
def InvalidEstimate (v : PyVal) : Prop :=
  v ≠ .null ∧ (∀ n, v = PyVal.int n → n < 1) ∧
  (∀ s n, v = PyVal.str s → parseIntStr s = some n → n < 1)

/-- A `priority` value the serializer must reject: present, not `null`, and
not one of the three allowed choice strings. -/
def InvalidPriority (v : PyVal) : Prop :=
  v ≠ .null ∧ ∀ s, v = PyVal.str s → s ≠ "low" ∧ s ≠ "medium" ∧ s ≠ "high"

/-- Full validity of an emitted suggestion record, per the
`TaskSuggestionSerializer` schema. -/
def ValidSuggestion (s : TaskSuggestion) : Prop :=
  s.title ≠ "" ∧ s.title.length ≤ 255 ∧
  (∀ n ∈ s.estimated_minutes, 1 ≤ n) ∧
  (∀ p ∈ s.priority, p = "low" ∨ p = "medium" ∨ p = "high") ∧
  (∀ st ∈ s.status, st = "pending" ∨ st = "in_progress" ∨ st = "completed")

/-! ## Theorems: Keyword Suggestion Engine -/

theorem mem_dedupFirst {seen l : List String} {x : String} :
    x ∈ dedupFirst seen l ↔ x ∈ l ∧ x ∉ seen := by
  induction l generalizing seen with
  | nil => simp [dedupFirst]
  | cons t rest ih =>
    by_cases h : t ∈ seen
    · rw [dedupFirst, if_pos h]
      rw [ih]
      constructor
      · exact fun hx => ⟨List.mem_cons_of_mem _ hx.1, hx.2⟩
      · rintro ⟨hx, hns⟩
        rcases List.mem_cons.mp hx with rfl | hx
        · exact absurd h hns
        · exact ⟨hx, hns⟩
    · rw [dedupFirst, if_neg h]
      simp only [List.mem_cons, ih, List.mem_cons]
      constructor
      · rintro (rfl | ⟨hx, hns⟩)
        · exact ⟨Or.inl rfl, h⟩
        · exact ⟨Or.inr hx, fun hs => hns (Or.inr hs)⟩
      · rintro ⟨rfl | hx, hns⟩
        · exact Or.inl rfl
        · by_cases hxt : x = t
          · exact Or.inl hxt
          · exact Or.inr ⟨hx, fun hs => hs.elim hxt hns⟩

theorem nodup_dedupFirst (seen l : List String) : (dedupFirst seen l).Nodup := by
  induction l generalizing seen with
  | nil => simp [dedupFirst]
  | cons t rest ih =>
    by_cases h : t ∈ seen
    · rw [dedupFirst, if_pos h]; exact ih seen
    · rw [dedupFirst, if_neg h]
      refine List.nodup_cons.mpr ⟨?_, ih _⟩
      intro hmem
      exact (mem_dedupFirst.mp hmem).2 (List.mem_cons_self t seen)

theorem dedupFirst_sublist (seen l : List String) : (dedupFirst seen l).Sublist l := by
  induction l generalizing seen with
  | nil => simp [dedupFirst]
  | cons t rest ih =>
    by_cases h : t ∈ seen
    · rw [dedupFirst, if_pos h]; exact (ih seen).cons t
    · rw [dedupFirst, if_neg h]; exact (ih (t :: seen)).cons₂ t

theorem rawTasks_ne_nil (msg : String) : rawTasks msg ≠ [] := by
  unfold rawTasks matchedTasks keywordToTasks
  cases h1 : strContains (pyLower msg) "wedding" <;>
    cases h2 : strContains (pyLower msg) "trip" <;>
      cases h3 : strContains (pyLower msg) "birthday" <;>
        simp [h1, h2, h3, genericFallback]

theorem suggest_ne_nil (msg : String) : suggestTasksFromMessage msg ≠ [] := by
  intro hnil
  obtain ⟨x, hx⟩ := List.exists_mem_of_ne_nil _ (rawTasks_ne_nil msg)
  have hmem : x ∈ dedupFirst [] (rawTasks msg) :=
    mem_dedupFirst.mpr ⟨hx, by simp⟩
  rw [suggestTasksFromMessage] at hnil
  rw [hnil] at hmem
  exact (List.not_mem_nil x) hmem

/-- C6: for every non-empty message, the keyword suggestion engine returns a
non-empty list, free of duplicates, which is a subsequence of the raw
matched-task list (so relative first-occurrence order is preserved) with
exactly the raw list's titles; determinism is immediate since
`suggestTasksFromMessage` is a pure function of the message; and when the
lower-cased message contains none of the three configured keywords the
result is exactly the fixed 4-item generic fallback list. -/
theorem suggestion_engine_contract (msg : String) (_hmsg : msg ≠ "") :
    suggestTasksFromMessage msg ≠ [] ∧
    (suggestTasksFromMessage msg).Nodup ∧
    (suggestTasksFromMessage msg).Sublist (rawTasks msg) ∧
    (∀ x, x ∈ suggestTasksFromMessage msg ↔ x ∈ rawTasks msg) ∧
    (strContains (pyLower msg) "wedding" = false →
      strContains (pyLower msg) "trip" = false →
        strContains (pyLower msg) "birthday" = false →
          suggestTasksFromMessage msg = genericFallback) := by
  refine ⟨suggest_ne_nil msg, nodup_dedupFirst [] _, dedupFirst_sublist [] _, ?_, ?_⟩
  · intro x
    rw [suggestTasksFromMessage, mem_dedupFirst]
    simp
  · intro h1 h2 h3
    have hraw : rawTasks msg = genericFallback := by
      unfold rawTasks matchedTasks keywordToTasks
      simp [h1, h2, h3]
    rw [suggestTasksFromMessage, hraw]
    decide

/-- Witness for C6 at the concrete message `"hello"` (which matches no
configured keyword). -/
theorem suggestion_engine_contract_witness :
    suggestTasksFromMessage "hello" ≠ [] ∧
    (suggestTasksFromMessage "hello").Nodup ∧
    (suggestTasksFromMessage "hello").Sublist (rawTasks "hello") ∧
    (∀ x, x ∈ suggestTasksFromMessage "hello" ↔ x ∈ rawTasks "hello") ∧
    (strContains (pyLower "hello") "wedding" = false →
      strContains (pyLower "hello") "trip" = false →
        strContains (pyLower "hello") "birthday" = false →
          suggestTasksFromMessage "hello" = genericFallback) :=
  suggestion_engine_contract "hello" (by decide)

/-! ## Theorems: External Suggestion Adapter -/

/-- C4: with no configured credential (the combined settings/environment
credential is unset or empty, hence falsy), the adapter returns — without
reaching the model call, and by a total computation, so no exception — the
keyword engine's titles for the message, each wrapped into a full
`TaskSuggestion`-shaped record, and that list is non-empty. -/
theorem adapter_no_credential (jsonParse : String → Option PyVal)
    (dtParse : String → Option Int) (apiKey : Option String)
    (importOk : Bool) (call : ModelCall) (msg : String) (_hmsg : msg ≠ "")
    (hkey : credTruthy apiKey = false) :
    callOpenaiForSuggestions jsonParse dtParse apiKey importOk call msg
      = (suggestTasksFromMessage msg).map wrapFull ∧
    callOpenaiForSuggestions jsonParse dtParse apiKey importOk call msg ≠ [] := by
  have heq : callOpenaiForSuggestions jsonParse dtParse apiKey importOk call msg
      = (suggestTasksFromMessage msg).map wrapFull := by
    unfold callOpenaiForSuggestions
    rw [hkey]
    simp
  refine ⟨heq, ?_⟩
  rw [heq]
  intro hnil
  exact suggest_ne_nil msg (List.map_eq_nil.mp hnil)

/-- Witness for C4: concrete instantiation with no credential and the
message `"plan a trip"`. -/
theorem adapter_no_credential_witness :
    callOpenaiForSuggestions (fun _ => none) (fun _ => none) none true
        ModelCall.raises "plan a trip"
      = (suggestTasksFromMessage "plan a trip").map wrapFull ∧
    callOpenaiForSuggestions (fun _ => none) (fun _ => none) none true
        ModelCall.raises "plan a trip" ≠ [] :=
  adapter_no_credential (fun _ => none) (fun _ => none) none true
    ModelCall.raises "plan a trip" (by decide) (by decide)

/-- C5: with a configured credential (and a working import), if the model
call raises, the adapter returns the keyword engine's titles in the full
wrap; if the call returns but its content fails to parse into a usable
candidate list, or every candidate is dropped by validation — both captured
by the validated list being empty — the adapter returns the keyword
engine's titles in the minimal wrap.  In either case the result is
non-empty and no exception escapes (the embedding of the adapter is a total
function). -/
theorem adapter_failure_fallback (jsonParse : String → Option PyVal)
    (dtParse : String → Option Int) (apiKey : Option String) (call : ModelCall)
    (msg : String) (_hmsg : msg ≠ "") (hkey : credTruthy apiKey = true) :
    (call = ModelCall.raises →
      callOpenaiForSuggestions jsonParse dtParse apiKey true call msg
        = (suggestTasksFromMessage msg).map wrapFull ∧
      callOpenaiForSuggestions jsonParse dtParse apiKey true call msg ≠ []) ∧
    (∀ c, call = ModelCall.returns c →
      (parsedCandidates (jsonParse (contentOf c))).filterMap
          (validateSuggestion dtParse) = [] →
      callOpenaiForSuggestions jsonParse dtParse apiKey true call msg
        = (suggestTasksFromMessage msg).map wrapMin ∧
      callOpenaiForSuggestions jsonParse dtParse apiKey true call msg ≠ []) := by
  constructor
  · rintro rfl
    have heq : callOpenaiForSuggestions jsonParse dtParse apiKey true
        ModelCall.raises msg = (suggestTasksFromMessage msg).map wrapFull := by
      unfold callOpenaiForSuggestions
      rw [hkey]
      simp
    refine ⟨heq, ?_⟩
    rw [heq]
    intro hnil
    exact suggest_ne_nil msg (List.map_eq_nil.mp hnil)
  · rintro c rfl hempty
    have heq : callOpenaiForSuggestions jsonParse dtParse apiKey true
        (ModelCall.returns c) msg = (suggestTasksFromMessage msg).map wrapMin := by
      unfold callOpenaiForSuggestions
      rw [hkey]
      simp [hempty]
    refine ⟨heq, ?_⟩
    rw [heq]
    intro hnil
    exact suggest_ne_nil msg (List.map_eq_nil.mp hnil)

/-- Witness for C5: a configured credential whose model call returns
unparsable content (the JSON parser rejects everything), at the message
`"wedding"`. -/
theorem adapter_failure_fallback_witness :
    ((ModelCall.returns (some "oops") : ModelCall) = ModelCall.raises →
      callOpenaiForSuggestions (fun _ => none) (fun _ => none) (some "sk-x") true
          (ModelCall.returns (some "oops")) "wedding"
        = (suggestTasksFromMessage "wedding").map wrapFull ∧
      callOpenaiForSuggestions (fun _ => none) (fun _ => none) (some "sk-x") true
          (ModelCall.returns (some "oops")) "wedding" ≠ []) ∧
    (∀ c, (ModelCall.returns (some "oops") : ModelCall) = ModelCall.returns c →
      (parsedCandidates ((fun _ => none : String → Option PyVal) (contentOf c))).filterMap
          (validateSuggestion (fun _ => none)) = [] →
      callOpenaiForSuggestions (fun _ => none) (fun _ => none) (some "sk-x") true
          (ModelCall.returns (some "oops")) "wedding"
        = (suggestTasksFromMessage "wedding").map wrapMin ∧
      callOpenaiForSuggestions (fun _ => none) (fun _ => none) (some "sk-x") true
          (ModelCall.returns (some "oops")) "wedding" ≠ []) :=
  adapter_failure_fallback (fun _ => none) (fun _ => none) (some "sk-x")
    (ModelCall.returns (some "oops")) "wedding" (by decide) (by decide)

/-! ## Theorems: Suggestion Normalizer -/

theorem vEstimated_invalid {v : PyVal} (h : InvalidEstimate v) :
    vEstimated (some v) = none := by
  obtain ⟨hnull, hint, hstr⟩ := h
  cases v with
  | null => exact absurd rfl hnull
  | bool b => rfl
  | int n =>
    have := hint n rfl
    simp [vEstimated]
    omega
  | str s =>
    cases hp : parseIntStr s with
    | none => simp [vEstimated, hp]
    | some n =>
      have := hstr s n rfl hp
      simp [vEstimated, hp]
      omega
  | list xs => rfl
  | dict fs => rfl

theorem vPriority_invalid {v : PyVal} (h : InvalidPriority v) :
    vPriority (some v) = none := by
  obtain ⟨hnull, hstr⟩ := h
  cases v with
  | null => exact absurd rfl hnull
  | bool b => rfl
  | int n => rfl
  | str s =>
    obtain ⟨h1, h2, h3⟩ := hstr s rfl
    simp [vPriority, h1, h2, h3]
  | list xs => rfl
  | dict fs => rfl

theorem vTitle_some {o : Option PyVal} {t : String} (h : vTitle o = some t) :
    t ≠ "" ∧ t.length ≤ 255 := by
  cases o with
  | none => simp [vTitle] at h
  | some v =>
    cases hcs : charFieldStr v with
    | none => simp [vTitle, hcs] at h
    | some str =>
      simp only [vTitle, hcs] at h
      split_ifs at h with h1 h2
      cases h
      exact ⟨h1, by omega⟩

theorem vEstimated_some {o : Option PyVal} {e : Option Int}
    (h : vEstimated o = some e) : ∀ n ∈ e, 1 ≤ n := by
  intro n hn
  cases o with
  | none => simp [vEstimated] at h; subst h; cases hn
  | some v =>
    cases v with
    | null => simp [vEstimated] at h; subst h; cases hn
    | bool b => simp [vEstimated] at h
    | int m =>
      simp only [vEstimated] at h
      split_ifs at h with h1
      cases h
      cases hn
      exact h1
    | str str =>
      cases hp : parseIntStr str with
      | none => simp [vEstimated, hp] at h
      | some m =>
        simp only [vEstimated, hp] at h
        split_ifs at h with h1
        cases h
        cases hn
        exact h1
    | list xs => simp [vEstimated] at h
    | dict gs => simp [vEstimated] at h

theorem vPriority_some {o : Option PyVal} {p : Option String}
    (h : vPriority o = some p) :
    ∀ x ∈ p, x = "low" ∨ x = "medium" ∨ x = "high" := by
  intro x hx
  cases o with
  | none => simp [vPriority] at h; subst h; cases hx
  | some v =>
    cases v with
    | null => simp [vPriority] at h; subst h; cases hx
    | bool b => simp [vPriority] at h
    | int m => simp [vPriority] at h
    | str str =>
      simp only [vPriority] at h
      split_ifs at h with h1
      cases h
      cases hx
      exact h1
    | list xs => simp [vPriority] at h
    | dict gs => simp [vPriority] at h

theorem vStatus_some {o : Option PyVal} {p : Option String}
    (h : vStatus o = some p) :
    ∀ x ∈ p, x = "pending" ∨ x = "in_progress" ∨ x = "completed" := by
  intro x hx
  cases o with
  | none => simp [vStatus] at h; subst h; cases hx
  | some v =>
    cases v with
    | null => simp [vStatus] at h; subst h; cases hx
    | bool b => simp [vStatus] at h
    | int m => simp [vStatus] at h
    | str str =>
      simp only [vStatus] at h
      split_ifs at h with h1
      cases h
      cases hx
      exact h1
    | list xs => simp [vStatus] at h
    | dict gs => simp [vStatus] at h

theorem validateSuggestion_valid {dtParse : String → Option Int} {c : PyVal}
    {s : TaskSuggestion} (h : validateSuggestion dtParse c = some s) :
    ValidSuggestion s := by
  cases c with
  | dict fs =>
    rw [validateSuggestion] at h
    cases ht : vTitle (lookupField fs "title") with
    | none => rw [ht] at h; exact absurd h (by simp)
    | some title =>
      rw [ht] at h
      cases hd : vDueAt dtParse (lookupField fs "due_at") with
      | none => rw [hd] at h; exact absurd h (by simp)
      | some due =>
        rw [hd] at h
        cases hn : vNotes (lookupField fs "notes") with
        | none => rw [hn] at h; exact absurd h (by simp)
        | some notes =>
          rw [hn] at h
          cases hg : vTags (lookupField fs "tags") with
          | none => rw [hg] at h; exact absurd h (by simp)
          | some tags =>
            rw [hg] at h
            cases hc : vConfidence (lookupField fs "confidence") with
            | none => rw [hc] at h; exact absurd h (by simp)
            | some conf =>
              rw [hc] at h
              cases hp : vPriority (lookupField fs "priority") with
              | none => rw [hp] at h; exact absurd h (by simp)
              | some prio =>
                rw [hp] at h
                cases he : vEstimated (lookupField fs "estimated_minutes") with
                | none => rw [he] at h; exact absurd h (by simp)
                | some est =>
                  rw [he] at h
                  cases hs : vStatus (lookupField fs "status") with
                  | none => rw [hs] at h; exact absurd h (by simp)
                  | some stat =>
                    rw [hs] at h
                    have h2 : (⟨title, due, notes, tags, conf, prio, est, stat⟩ :
                        TaskSuggestion) = s := Option.some_injective _ h
                    subst h2
                    exact ⟨(vTitle_some ht).1, (vTitle_some ht).2,
                      vEstimated_some he, vPriority_some hp, vStatus_some hs⟩
  | null => exact absurd h (by simp [validateSuggestion])
  | bool b => exact absurd h (by simp [validateSuggestion])
  | int n => exact absurd h (by simp [validateSuggestion])
  | str str => exact absurd h (by simp [validateSuggestion])
  | list xs => exact absurd h (by simp [validateSuggestion])

theorem validateSuggestion_none_of_bad {dtParse : String → Option Int}
    {fs : List (String × PyVal)}
    (hbad : (∃ v, lookupField fs "estimated_minutes" = some v ∧ InvalidEstimate v) ∨
            (∃ v, lookupField fs "priority" = some v ∧ InvalidPriority v)) :
    validateSuggestion dtParse (.dict fs) = none := by
  rw [validateSuggestion]
  rcases hbad with ⟨v, hv, hinv⟩ | ⟨v, hv, hinv⟩
  · rw [hv, vEstimated_invalid hinv]
    cases vTitle (lookupField fs "title") <;>
      cases vDueAt dtParse (lookupField fs "due_at") <;>
        cases vNotes (lookupField fs "notes") <;>
          cases vTags (lookupField fs "tags") <;>
            cases vConfidence (lookupField fs "confidence") <;>
              cases vPriority (lookupField fs "priority") <;> rfl
  · rw [hv, vPriority_invalid hinv]
    cases vTitle (lookupField fs "title") <;>
      cases vDueAt dtParse (lookupField fs "due_at") <;>
        cases vNotes (lookupField fs "notes") <;>
          cases vTags (lookupField fs "tags") <;>
            cases vConfidence (lookupField fs "confidence") <;> rfl

/-- C7: a structured candidate with an invalid value for `estimated_minutes`
(present, non-null, not an integer ≥ 1) or for `priority` (present,
non-null, outside `{low, medium, high}`) is rejected outright by the
normalizer and contributes nothing to the validated batch; and every record
the normalizer does emit satisfies the full `TaskSuggestion` schema — no
partially valid record is ever produced. -/
theorem normalizer_drops_invalid (dtParse : String → Option Int)
    (fs : List (String × PyVal)) (l1 l2 : List PyVal)
    (hbad : (∃ v, lookupField fs "estimated_minutes" = some v ∧ InvalidEstimate v) ∨
            (∃ v, lookupField fs "priority" = some v ∧ InvalidPriority v)) :
    validateSuggestion dtParse (.dict fs) = none ∧
    (l1 ++ PyVal.dict fs :: l2).filterMap (validateSuggestion dtParse)
      = (l1 ++ l2).filterMap (validateSuggestion dtParse) ∧
    ∀ (cands : List PyVal) (s : TaskSuggestion),
      s ∈ cands.filterMap (validateSuggestion dtParse) → ValidSuggestion s := by
  have hnone := @validateSuggestion_none_of_bad dtParse fs hbad
  refine ⟨hnone, ?_, ?_⟩
  · simp [List.filterMap_append, List.filterMap_cons, hnone]
  · intro cands s hmem
    obtain ⟨c, _, hc⟩ := List.mem_filterMap.mp hmem
    exact validateSuggestion_valid hc

/-- Witness for C7: a candidate whose `estimated_minutes` is the integer 0
(not a positive integer) is dropped. -/
theorem normalizer_drops_invalid_witness :
    validateSuggestion (fun _ => none)
        (.dict [("title", .str "Pack bags"), ("estimated_minutes", .int 0)]) = none ∧
    ([] ++ PyVal.dict [("title", .str "Pack bags"), ("estimated_minutes", .int 0)] :: []).filterMap
        (validateSuggestion (fun _ => none))
      = ([] ++ []).filterMap (validateSuggestion (fun _ => none)) ∧
    ∀ (cands : List PyVal) (s : TaskSuggestion),
      s ∈ cands.filterMap (validateSuggestion (fun _ => none)) → ValidSuggestion s :=
  normalizer_drops_invalid (fun _ => none)
    [("title", .str "Pack bags"), ("estimated_minutes", .int 0)] [] []
    (Or.inl ⟨.int 0, rfl, by
      refine ⟨by simp, ?_, ?_⟩
      · intro n hn
        cases hn
        decide
      · intro s n hs
        cases hs⟩)

/-! ## Theorems: Weekly Scheduler -/

theorem getD_set_self {α : Type} (l : List α) (i : Nat) (v d : α)
    (h : i < l.length) : (l.set i v).getD i d = v := by
  rw [List.getD_eq_get?, List.get?_set_eq_of_lt _ h]
  rfl

theorem getD_set_ne {α : Type} (l : List α) {i j : Nat} (v d : α)
    (h : i ≠ j) : (l.set i v).getD j d = l.getD j d := by
  rw [List.getD_eq_get?, List.getD_eq_get?, List.get?_set_ne v l h]

theorem sumEst_cons (p : PlacedItem) (l : List PlacedItem) :
    sumEst (p :: l) = p.est + sumEst l := by
  simp [sumEst]

theorem sumEst_append (l1 l2 : List PlacedItem) :
    sumEst (l1 ++ l2) = sumEst l1 + sumEst l2 := by
  simp [sumEst]

theorem ChainedFrom_append {acc : Int} {l : List PlacedItem} {p : PlacedItem}
    (hl : ChainedFrom acc l) (hs : p.startMin = 600 + (acc + sumEst l))
    (he : p.endMin = p.startMin + p.est) : ChainedFrom acc (l ++ [p]) := by
  induction l generalizing acc with
  | nil =>
    refine ⟨?_, he, trivial⟩
    rw [hs]
    simp [sumEst]
  | cons q rest ih =>
    obtain ⟨h1, h2, h3⟩ := hl
    refine ⟨h1, h2, ih h3 ?_⟩
    rw [hs, sumEst_cons]
    ring

theorem mem_weekIdx_lt {i : Nat} (h : i ∈ weekIdx) : i < 7 := by
  simp [weekIdx] at h
  rcases h with rfl | rfl | rfl | rfl | rfl | rfl | rfl <;> omega

theorem lt_mem_weekIdx {i : Nat} (h : i < 7) : i ∈ weekIdx := by
  interval_cases i <;> decide

theorem StInv_init : StInv initState := by
  refine ⟨rfl, rfl, ?_⟩
  intro i hi
  interval_cases i <;> exact ⟨rfl, by decide, trivial⟩

theorem NonnegSt_init : NonnegSt initState := by
  intro i
  rw [show initState.load = List.replicate 7 (0 : Int) from rfl,
    List.getD_eq_get?]
  rcases h : (List.replicate 7 (0 : Int)).get? i with _ | v
  · simp
  · have hv := List.get?_mem h
    rw [List.eq_of_mem_replicate hv]
    simp

theorem placeOn_ok {item : NormItem} {st : SchedState} {i : Nat}
    {st' : SchedState} (h : placeOn item st i = .ok st') :
    st' = ⟨st.load.set i (st.load.getD i 0 + item.est),
           st.sched.set i
             (st.sched.getD i [] ++ [mkPlaced item (st.load.getD i 0)]),
           st.qw⟩ := by
  rw [placeOn] at h
  split_ifs at h
  cases h
  rfl

theorem placeOn_eq_ok {item : NormItem} {st : SchedState} {i : Nat}
    (h0 : 0 ≤ st.load.getD i 0) (h840 : st.load.getD i 0 < 840) :
    placeOn item st i =
      .ok ⟨st.load.set i (st.load.getD i 0 + item.est),
           st.sched.set i
             (st.sched.getD i [] ++ [mkPlaced item (st.load.getD i 0)]),
           st.qw⟩ := by
  rw [placeOn, if_neg (by omega), if_neg (by omega)]

theorem placeTaskAux_spec {today : Int} {item : NormItem} :
    ∀ {idxs : List Nat} {st : SchedState} {b : Bool} {st' : SchedState},
      placeTaskAux today item idxs st = .ok (b, st') →
      (b = false ∧ st' = st) ∨
      (b = true ∧ ∃ i ∈ idxs, dueCut today item i = false ∧
        st.load.getD i 0 + item.est ≤ 120 ∧ placeOn item st i = .ok st') := by
  intro idxs
  induction idxs with
  | nil =>
    intro st b st' h
    rw [placeTaskAux] at h
    cases h
    exact Or.inl ⟨rfl, rfl⟩
  | cons i rest ih =>
    intro st b st' h
    rw [placeTaskAux] at h
    split_ifs at h with hcut hfit
    · cases h
      exact Or.inl ⟨rfl, rfl⟩
    · cases hpo : placeOn item st i with
      | error e => rw [hpo] at h; cases h
      | ok st2 =>
        rw [hpo] at h
        cases h
        exact Or.inr ⟨rfl, i, List.mem_cons_self i rest,
          by simpa using hcut, hfit, hpo⟩
    · rcases ih h with hl | ⟨hb, i2, hi2, h1, h2, h3⟩
      · exact Or.inl hl
      · exact Or.inr ⟨hb, i2, List.mem_cons_of_mem _ hi2, h1, h2, h3⟩

theorem processItem_spec {today : Int} {st : SchedState} {item : NormItem}
    {st' : SchedState} (h : processItem today st item = .ok st') :
    (∃ i ∈ weekIdx, dueCut today item i = false ∧
       st.load.getD i 0 + item.est ≤ 120 ∧
       st'.load = st.load.set i (st.load.getD i 0 + item.est) ∧
       st'.sched = st.sched.set i
         (st.sched.getD i [] ++ [mkPlaced item (st.load.getD i 0)]) ∧
       st'.qw = st.qw) ∨
    (st'.load = st.load ∧ st'.sched = st.sched ∧
       st'.qw = st.qw ++ [⟨item.title, item.est, item.priority⟩]) := by
  rw [processItem, placeTask] at h
  cases hp : placeTaskAux today item weekIdx st with
  | error e => rw [hp] at h; cases h
  | ok r =>
    rw [hp] at h
    obtain ⟨b, st2⟩ := r
    cases b
    · rcases placeTaskAux_spec hp with ⟨_, hst⟩ | ⟨hb, _⟩
      · right
        have h2 : Except.ok (⟨st2.load, st2.sched,
            st2.qw ++ [⟨item.title, item.est, item.priority⟩]⟩ : SchedState)
            = Except.ok st' := h
        cases h2
        rw [hst]
        exact ⟨rfl, rfl, rfl⟩
      · cases hb
    · rcases placeTaskAux_spec hp with ⟨hb, _⟩ | ⟨_, i, hi, hcut, hfit, hpo⟩
      · cases hb
      · left
        have h2 : Except.ok st2 = Except.ok st' := h
        cases h2
        rw [placeOn_ok hpo]
        exact ⟨i, hi, hcut, hfit, rfl, rfl, rfl⟩

theorem StInv_set_place {st : SchedState} {i : Nat} {item : NormItem}
    (hinv : StInv st) (hi7 : i < 7)
    (hfit : st.load.getD i 0 + item.est ≤ 120) :
    StInv ⟨st.load.set i (st.load.getD i 0 + item.est),
           st.sched.set i
             (st.sched.getD i [] ++ [mkPlaced item (st.load.getD i 0)]),
           st.qw⟩ := by
  obtain ⟨hl, hs, hinv3⟩ := hinv
  refine ⟨by simpa using hl, by simpa using hs, ?_⟩
  intro j hj
  by_cases hij : i = j
  · subst hij
    rw [getD_set_self _ _ _ _ (by omega), getD_set_self _ _ _ _ (by omega)]
    obtain ⟨e1, e2, e3⟩ := hinv3 i hi7
    refine ⟨?_, by omega, ?_⟩
    · rw [sumEst_append, e1]
      simp [sumEst, mkPlaced]
    · refine ChainedFrom_append e3 ?_ rfl
      show 600 + st.load.getD i 0 = 600 + (0 + sumEst (st.sched.getD i []))
      rw [e1]
      ring
  · rw [getD_set_ne _ _ _ hij, getD_set_ne _ _ _ hij]
    exact hinv3 j hj

theorem StInv_processItem {today : Int} {st : SchedState} {item : NormItem}
    {st' : SchedState} (hinv : StInv st)
    (h : processItem today st item = .ok st') : StInv st' := by
  rcases processItem_spec h with ⟨i, hi, _, hfit, hl, hs, _⟩ | ⟨hl, hs, _⟩
  · have h2 := StInv_set_place hinv (mem_weekIdx_lt hi) hfit
    unfold StInv at h2 ⊢
    rw [hl, hs]
    exact h2
  · unfold StInv at hinv ⊢
    rw [hl, hs]
    exact hinv

theorem StInv_runItems {today : Int} :
    ∀ {items : List NormItem} {st st' : SchedState}, StInv st →
      runItems today items st = .ok st' → StInv st' := by
  intro items
  induction items with
  | nil =>
    intro st st' hinv h
    rw [runItems] at h
    cases h
    exact hinv
  | cons item rest ih =>
    intro st st' hinv h
    rw [runItems] at h
    cases hp : processItem today st item with
    | error e => rw [hp] at h; cases h
    | ok st1 =>
      rw [hp] at h
      exact ih (StInv_processItem hinv hp) h

theorem schedulePost_ok {parse : String → Option Int} {today : Int}
    {tasks : List PyVal} {resp : SchedResponse}
    (h : schedulePost parse today tasks = .ok resp) :
    ∃ normalized st', normalizeTasks parse tasks = .ok normalized ∧
      runItems today (normalized.filter (isMustDo today) ++
        normalized.filter (fun t => !isMustDo today t)) initState
        = .ok st' ∧
      resp = buildResponse today st' := by
  rw [schedulePost] at h
  cases hn : normalizeTasks parse tasks with
  | error e => rw [hn] at h; cases h
  | ok normalized =>
    rw [hn] at h
    have h2 : (runItems today (normalized.filter (isMustDo today) ++
        normalized.filter (fun t => !isMustDo today t)) initState).map
        (buildResponse today) = Except.ok resp := h
    cases hr : runItems today (normalized.filter (isMustDo today) ++
        normalized.filter (fun t => !isMustDo today t)) initState with
    | error e => rw [hr] at h2; cases h2
    | ok st' =>
      rw [hr] at h2
      have h3 : Except.ok (buildResponse today st') = Except.ok resp := h2
      cases h3
      exact ⟨normalized, st', rfl, hr, rfl⟩

/-- C1: whenever the scheduler returns a response, the sum of
`estimated_minutes` over the items placed on any single one of the 7 days
is at most 120 (the fixed daily budget, tracked per day from 0). -/
theorem scheduler_daily_capacity (parse : String → Option Int) (today : Int)
    (tasks : List PyVal) (resp : SchedResponse)
    (h : schedulePost parse today tasks = .ok resp) :
    ∀ day ∈ resp.week, sumEst day.items ≤ 120 := by
  obtain ⟨normalized, st', _, hr, hresp⟩ := schedulePost_ok h
  have hinv : StInv st' := StInv_runItems StInv_init hr
  subst hresp
  intro day hday
  simp only [buildResponse, List.mem_map] at hday
  obtain ⟨i, hi, rfl⟩ := hday
  have hi7 : i < 7 := mem_weekIdx_lt hi
  obtain ⟨e1, e2, _⟩ := hinv.2.2 i hi7
  show sumEst (st'.sched.getD i []) ≤ 120
  rw [← e1]
  exact e2

/-- Witness for C1: a concrete run with one 100-minute task, read off at
its day 0. -/
theorem scheduler_daily_capacity_witness :
    sumEst [⟨"X", 600, 700, PyVal.str "medium", 100⟩] ≤ 120 :=
  scheduler_daily_capacity (fun _ => none) 0
    [.dict [("title", .str "X"), ("estimated_minutes", .int 100)]]
    ⟨[⟨0, [⟨"X", 600, 700, PyVal.str "medium", 100⟩]⟩, ⟨1, []⟩, ⟨2, []⟩,
      ⟨3, []⟩, ⟨4, []⟩, ⟨5, []⟩, ⟨6, []⟩], []⟩ rfl
    ⟨0, [⟨"X", 600, 700, PyVal.str "medium", 100⟩]⟩
    (List.mem_cons_self _ _)

/-- C2: when the main loop processes a normalized item carrying a due date
and succeeds, exactly one of two things happens: the item is appended to
exactly one of the 7 day lists — day `i`, whose date `today + i` does not
exceed the due date — leaving `quick_wins` untouched, or no day list
changes and the item is appended to `quick_wins`; never both, never
neither.  (The response's `week` lists day offset `i` at date `today + i`,
so a single `List.set` at `i` is placement on exactly one day.) -/
theorem scheduler_due_date_respected (today : Int) (item : NormItem)
    (due : Int) (st st' : SchedState) (hdue : item.due = some due)
    (h : processItem today st item = .ok st') :
    (∃ i : Nat, i < 7 ∧ today + (i : Int) ≤ due ∧
       st'.load = st.load.set i (st.load.getD i 0 + item.est) ∧
       st'.sched = st.sched.set i
         (st.sched.getD i [] ++ [mkPlaced item (st.load.getD i 0)]) ∧
       st'.qw = st.qw) ∨
    (st'.load = st.load ∧ st'.sched = st.sched ∧
       st'.qw = st.qw ++ [⟨item.title, item.est, item.priority⟩]) := by
  rcases processItem_spec h with ⟨i, hi, hcut, _, h1, h2, h3⟩ | hr
  · left
    refine ⟨i, mem_weekIdx_lt hi, ?_, h1, h2, h3⟩
    simp only [dueCut, hdue, decide_eq_false_iff_not, not_lt] at hcut
    exact hcut
  · right
    exact hr

/-- Witness for C2: a 30-minute item due on day 3 processed from the
initial state is placed on day 0. -/
theorem scheduler_due_date_respected_witness :
    (∃ i : Nat, i < 7 ∧ (0 : Int) + (i : Int) ≤ 3 ∧
       (⟨(initState.load.set 0 30),
         (initState.sched.set 0
           [mkPlaced ⟨"x", 30, PyVal.str "medium", some 3⟩ 0]),
         []⟩ : SchedState).load
         = initState.load.set i (initState.load.getD i 0 +
             (⟨"x", 30, PyVal.str "medium", some 3⟩ : NormItem).est) ∧
       (⟨(initState.load.set 0 30),
         (initState.sched.set 0
           [mkPlaced ⟨"x", 30, PyVal.str "medium", some 3⟩ 0]),
         []⟩ : SchedState).sched
         = initState.sched.set i (initState.sched.getD i [] ++
             [mkPlaced ⟨"x", 30, PyVal.str "medium", some 3⟩
               (initState.load.getD i 0)]) ∧
       (⟨(initState.load.set 0 30),
         (initState.sched.set 0
           [mkPlaced ⟨"x", 30, PyVal.str "medium", some 3⟩ 0]),
         []⟩ : SchedState).qw = initState.qw) ∨
    ((⟨(initState.load.set 0 30),
       (initState.sched.set 0
         [mkPlaced ⟨"x", 30, PyVal.str "medium", some 3⟩ 0]),
       []⟩ : SchedState).load = initState.load ∧
     (⟨(initState.load.set 0 30),
       (initState.sched.set 0
         [mkPlaced ⟨"x", 30, PyVal.str "medium", some 3⟩ 0]),
       []⟩ : SchedState).sched = initState.sched ∧
     (⟨(initState.load.set 0 30),
       (initState.sched.set 0
         [mkPlaced ⟨"x", 30, PyVal.str "medium", some 3⟩ 0]),
       []⟩ : SchedState).qw = initState.qw ++
         [⟨"x", 30, PyVal.str "medium"⟩]) :=
  scheduler_due_date_respected 0 ⟨"x", 30, PyVal.str "medium", some 3⟩ 3
    initState _ rfl rfl

/-- C8: (general rule) whenever the scheduler returns, every day's item
list is chained: each placed item starts at 10:00 (minute 600) plus the
day's accumulated load at its placement time and ends at its start plus
its duration; (concrete scenario) for items A (90 min) and B (60 min) with
no due dates, A is placed on day 0 from 10:00 (600) to 11:30 (690), B on
day 1 from 10:00 (600) to 11:00 (660), and `quick_wins` is empty. -/
theorem scheduler_start_end_rule (parse : String → Option Int) (today : Int)
    (tasks : List PyVal) (resp : SchedResponse)
    (h : schedulePost parse today tasks = .ok resp) :
    (∀ day ∈ resp.week, ChainedFrom 0 day.items) ∧
    schedulePost (fun _ => none) 0
        [.dict [("title", .str "A"), ("estimated_minutes", .int 90)],
         .dict [("title", .str "B"), ("estimated_minutes", .int 60)]]
      = .ok ⟨[⟨0, [⟨"A", 600, 690, .str "medium", 90⟩]⟩,
              ⟨1, [⟨"B", 600, 660, .str "medium", 60⟩]⟩,
              ⟨2, []⟩, ⟨3, []⟩, ⟨4, []⟩, ⟨5, []⟩, ⟨6, []⟩], []⟩ := by
  constructor
  · obtain ⟨normalized, st', _, hr, hresp⟩ := schedulePost_ok h
    have hinv : StInv st' := StInv_runItems StInv_init hr
    subst hresp
    intro day hday
    simp only [buildResponse, List.mem_map] at hday
    obtain ⟨i, hi, rfl⟩ := hday
    exact (hinv.2.2 i (mem_weekIdx_lt hi)).2.2
  · rfl

/-- Witness for C8: the general start/end rule applied to the A/B scenario
run itself. -/
theorem scheduler_start_end_rule_witness :
    (∀ day ∈ (⟨[⟨0, [⟨"A", 600, 690, PyVal.str "medium", 90⟩]⟩,
                ⟨1, [⟨"B", 600, 660, PyVal.str "medium", 60⟩]⟩,
                ⟨2, []⟩, ⟨3, []⟩, ⟨4, []⟩, ⟨5, []⟩, ⟨6, []⟩],
               []⟩ : SchedResponse).week,
       ChainedFrom 0 day.items) ∧
    schedulePost (fun _ => none) 0
        [.dict [("title", .str "A"), ("estimated_minutes", .int 90)],
         .dict [("title", .str "B"), ("estimated_minutes", .int 60)]]
      = .ok ⟨[⟨0, [⟨"A", 600, 690, .str "medium", 90⟩]⟩,
              ⟨1, [⟨"B", 600, 660, .str "medium", 60⟩]⟩,
              ⟨2, []⟩, ⟨3, []⟩, ⟨4, []⟩, ⟨5, []⟩, ⟨6, []⟩], []⟩ :=
  scheduler_start_end_rule (fun _ => none) 0
    [.dict [("title", .str "A"), ("estimated_minutes", .int 90)],
     .dict [("title", .str "B"), ("estimated_minutes", .int 60)]] _ rfl

/-- C9: when every request item is discarded during normalization (in
particular for the empty task list), the scheduler returns a valid
response: 7 day entries for `today` through `today + 6` in calendar order,
each with an empty item list, and empty `quick_wins`. -/
theorem scheduler_empty_input (parse : String → Option Int) (today : Int)
    (tasks : List PyVal) (h : normalizeTasks parse tasks = .ok []) :
    schedulePost parse today tasks =
      .ok ⟨[⟨today, []⟩, ⟨today + 1, []⟩, ⟨today + 2, []⟩, ⟨today + 3, []⟩,
            ⟨today + 4, []⟩, ⟨today + 5, []⟩, ⟨today + 6, []⟩], []⟩ := by
  rw [schedulePost, h]
  show Except.ok (buildResponse today initState) = _
  rw [buildResponse]
  simp [weekIdx, initState]

/-- Witness for C9: a single item whose title strips to blank is discarded,
so the week comes back empty. -/
theorem scheduler_empty_input_witness :
    schedulePost (fun _ => none) 0 [.dict [("title", .str "  ")]] =
      .ok ⟨[⟨0, []⟩, ⟨(0 : Int) + 1, []⟩, ⟨(0 : Int) + 2, []⟩,
            ⟨(0 : Int) + 3, []⟩, ⟨(0 : Int) + 4, []⟩, ⟨(0 : Int) + 5, []⟩,
            ⟨(0 : Int) + 6, []⟩], []⟩ :=
  scheduler_empty_input (fun _ => none) 0 [.dict [("title", .str "  ")]] rfl

theorem pyTruthy_str {s : String} (h : s ≠ "") : pyTruthy (.str s) = true := by
  cases hb : s.isEmpty with
  | true => exact absurd ((String.isEmpty_iff s).mp hb) h
  | false => simp [pyTruthy, hb]

/-- C10: in the scheduler's normalization, an item with a string title that
survives stripping is kept, and its duration obeys the Python `or`
semantics of `estimated or 30`: the default 30 fires exactly when
`int(estimated_minutes)` is absent/unparsable (`none`) or parses to 0,
while any other parsed integer — including a negative one — is used
unchanged. -/
theorem estimate_default_rule (parse : String → Option Int)
    (fs : List (String × PyVal)) (title : String) (v : PyVal)
    (htv : dictGet fs "title" = .str title) (hne : title ≠ "")
    (htrim : pyStrip title ≠ "") (hev : dictGet fs "estimated_minutes" = v) :
    ∃ item : NormItem, normalizeTask parse (.dict fs) = .ok (some item) ∧
      ((estParse v = none ∨ estParse v = some 0) → item.est = 30) ∧
      (∀ n : Int, estParse v = some n → n ≠ 0 → item.est = n) := by
  refine ⟨normItemOf parse fs (pyStrip title), ?_, ?_, ?_⟩
  · rw [normalizeTask, htv, pyTruthy_str hne]
    simp [htrim]
  · intro hcase
    show estOr30 (estParse (dictGet fs "estimated_minutes")) = 30
    rw [hev]
    rcases hcase with hc | hc <;> rw [hc] <;> simp [estOr30]
  · intro n hn hn0
    show estOr30 (estParse (dictGet fs "estimated_minutes")) = n
    rw [hev, hn]
    simp [estOr30, hn0]

/-- Witness for C10: `estimated_minutes` given as the string `"0"` parses
to 0 and is defaulted to 30. -/
theorem estimate_default_rule_witness :
    ∃ item : NormItem,
      normalizeTask (fun _ => none)
          (.dict [("title", .str "a"), ("estimated_minutes", .str "0")])
        = .ok (some item) ∧
      ((estParse (.str "0") = none ∨ estParse (.str "0") = some 0) →
        item.est = 30) ∧
      (∀ n : Int, estParse (.str "0") = some n → n ≠ 0 → item.est = n) :=
  estimate_default_rule (fun _ => none)
    [("title", .str "a"), ("estimated_minutes", .str "0")] "a" (.str "0")
    rfl (by decide) (by decide) rfl

/-- C3 counterexample: the claim that the scheduler never raises for any
shape of individual items is false on the code: a truthy non-string
`title` (here the integer 5) reaches `.strip()` outside any `try` and
raises `AttributeError`. -/
theorem scheduler_never_fails_counterexample :
    ¬ ∀ (parse : String → Option Int) (today : Int) (tasks : List PyVal),
        ∃ resp, schedulePost parse today tasks = Except.ok resp := by
  intro hall
  obtain ⟨resp, hresp⟩ := hall (fun _ => none) 0 [.dict [("title", .int 5)]]
  rw [show schedulePost (fun _ => none) 0 [.dict [("title", .int 5)]]
      = Except.error "AttributeError: .strip on non-string title" from rfl]
    at hresp
  cases hresp

theorem normalizeTask_ok_of_safe {parse : String → Option Int} {t : PyVal}
    (h : SafeItem t) :
    ∃ o, normalizeTask parse t = .ok o ∧ ∀ item ∈ o, 0 < item.est := by
  obtain ⟨fs, rfl, htitle, hest⟩ := h
  cases htruthy : pyTruthy (dictGet fs "title") with
  | false =>
    refine ⟨none, ?_, by simp⟩
    rw [normalizeTask, htruthy]
    simp [show pyStrip "" = "" from rfl]
  | true =>
    obtain ⟨str, hstr⟩ := htitle htruthy
    by_cases hblank : pyStrip str = ""
    · refine ⟨none, ?_, by simp⟩
      rw [normalizeTask, htruthy]
      simp [hstr, hblank]
    · refine ⟨some (normItemOf parse fs (pyStrip str)), ?_, ?_⟩
      · rw [normalizeTask, htruthy]
        simp [hstr, hblank]
      · intro item hitem
        rw [Option.mem_def, Option.some_inj] at hitem
        subst hitem
        show 0 < estOr30 (estParse (dictGet fs "estimated_minutes"))
        cases hep : estParse (dictGet fs "estimated_minutes") with
        | none => norm_num [estOr30]
        | some n =>
          have hnn := hest n hep
          by_cases hz : n = 0
          · simp [estOr30, hz]
          · simp [estOr30, hz]
            omega

theorem normalizeTasks_ok_of_safe {parse : String → Option Int} :
    ∀ {tasks : List PyVal}, (∀ t ∈ tasks, SafeItem t) →
      ∃ items, normalizeTasks parse tasks = .ok items ∧
        ∀ it ∈ items, 0 < it.est := by
  intro tasks
  induction tasks with
  | nil => intro _; exact ⟨[], rfl, by simp⟩
  | cons t rest ih =>
    intro hsafe
    obtain ⟨o, ho, hop⟩ := @normalizeTask_ok_of_safe parse t
      (hsafe t (List.mem_cons_self t rest))
    obtain ⟨items, hi, hip⟩ := ih (fun u hu => hsafe u (List.mem_cons_of_mem _ hu))
    cases o with
    | none =>
      refine ⟨items, ?_, hip⟩
      rw [normalizeTasks, ho, hi]
      rfl
    | some item =>
      refine ⟨item :: items, ?_, ?_⟩
      · rw [normalizeTasks, ho, hi]
        rfl
      · intro it hit
        rcases List.mem_cons.mp hit with rfl | hit
        · exact hop it (by simp)
        · exact hip it hit

theorem placeTaskAux_ok {today : Int} {item : NormItem} (hpos : 0 < item.est) :
    ∀ {idxs : List Nat}, (∀ i ∈ idxs, i < 7) → ∀ {st : SchedState},
      StInv st → NonnegSt st →
      ∃ b st', placeTaskAux today item idxs st = .ok (b, st') ∧
        StInv st' ∧ NonnegSt st' := by
  intro idxs
  induction idxs with
  | nil =>
    intro _ st hinv hnn
    exact ⟨false, st, rfl, hinv, hnn⟩
  | cons i rest ih =>
    intro hmem st hinv hnn
    by_cases hcut : dueCut today item i = true
    · refine ⟨false, st, ?_, hinv, hnn⟩
      rw [placeTaskAux, if_pos hcut]
    · by_cases hfit : st.load.getD i 0 + item.est ≤ 120
      · have hi7 : i < 7 := hmem i (List.mem_cons_self i rest)
        have h0 : 0 ≤ st.load.getD i 0 := hnn i
        have hpo := @placeOn_eq_ok item st i h0
          (by have := (hinv.2.2 i hi7).2.1; omega)
        refine ⟨true, _, ?_, StInv_set_place hinv hi7 hfit, ?_⟩
        · rw [placeTaskAux, if_neg hcut, if_pos hfit, hpo]
          rfl
        · intro j
          show 0 ≤ (st.load.set i (st.load.getD i 0 + item.est)).getD j 0
          by_cases hij : i = j
          · subst hij
            rw [getD_set_self _ _ _ _ (by rw [show st.load.length = 7 from hinv.1]; omega)]
            omega
          · rw [getD_set_ne _ _ _ hij]
            exact hnn j
      · obtain ⟨b, st', h1, h2, h3⟩ :=
          ih (fun j hj => hmem j (List.mem_cons_of_mem _ hj)) hinv hnn
        refine ⟨b, st', ?_, h2, h3⟩
        rw [placeTaskAux, if_neg hcut, if_neg hfit]
        exact h1

theorem processItem_ok {today : Int} {st : SchedState} {item : NormItem}
    (hpos : 0 < item.est) (hinv : StInv st) (hnn : NonnegSt st) :
    ∃ st', processItem today st item = .ok st' ∧ StInv st' ∧ NonnegSt st' := by
  obtain ⟨b, st', h1, h2, h3⟩ := placeTaskAux_ok hpos
    (fun i hi => mem_weekIdx_lt hi) hinv hnn
  cases b
  · refine ⟨⟨st'.load, st'.sched,
      st'.qw ++ [⟨item.title, item.est, item.priority⟩]⟩, ?_, ?_, ?_⟩
    · rw [processItem, placeTask, h1]
      rfl
    · exact h2
    · exact h3
  · refine ⟨st', ?_, h2, h3⟩
    rw [processItem, placeTask, h1]
    rfl

theorem runItems_ok {today : Int} :
    ∀ {items : List NormItem}, (∀ it ∈ items, 0 < it.est) →
      ∀ {st : SchedState}, StInv st → NonnegSt st →
      ∃ st', runItems today items st = .ok st' := by
  intro items
  induction items with
  | nil =>
    intro _ st _ _
    exact ⟨st, rfl⟩
  | cons item rest ih =>
    intro hpos st hinv hnn
    obtain ⟨st1, h1, h2, h3⟩ :=
      processItem_ok (hpos item (List.mem_cons_self item rest)) hinv hnn
    obtain ⟨st', hr⟩ := ih (fun u hu => hpos u (List.mem_cons_of_mem _ hu)) h2 h3
    refine ⟨st', ?_⟩
    rw [runItems, h1]
    exact hr

/-- C3, amended: the claim as stated fails (see the counterexample: a
truthy non-string title raises, and a parsed negative duration can drive a
day's load below -600 and make `datetime.time` raise).  What holds: for
every list of items in which each item is a JSON object whose title, when
truthy, is a string, and whose `estimated_minutes`, when it parses to an
integer at all, is nonnegative, the scheduler never raises — blank titles
are dropped, unparsable durations default to 30, unparsable or non-string
due dates become "no deadline" — and it returns a well-formed response
whose week covers exactly `today .. today + 6` in order. -/
theorem scheduler_total_on_safe_items (parse : String → Option Int)
    (today : Int) (tasks : List PyVal) (hsafe : ∀ t ∈ tasks, SafeItem t) :
    ∃ resp, schedulePost parse today tasks = .ok resp ∧
      resp.week.map DaySchedule.date =
        [today, today + 1, today + 2, today + 3, today + 4, today + 5,
         today + 6] := by
  obtain ⟨items, hn, hpos⟩ := @normalizeTasks_ok_of_safe parse tasks hsafe
  have hposall : ∀ it ∈ items.filter (isMustDo today) ++
      items.filter (fun t => !isMustDo today t), 0 < it.est := by
    intro it hit
    rcases List.mem_append.mp hit with h | h <;>
      exact hpos it (List.mem_of_mem_filter h)
  obtain ⟨st', hr⟩ := runItems_ok hposall StInv_init NonnegSt_init
  refine ⟨buildResponse today st', ?_, ?_⟩
  · rw [schedulePost, hn]
    show (runItems today (items.filter (isMustDo today) ++
        items.filter (fun t => !isMustDo today t)) initState).map
      (buildResponse today) = _
    rw [hr]
    rfl
  · rw [buildResponse]
    simp [weekIdx]

/-- Witness for C3's amended claim: a malformed-but-safe item (unparsable
duration, non-string due date) is handled without error. -/
theorem scheduler_total_on_safe_items_witness :
    ∃ resp, schedulePost (fun _ => none) 0
        [.dict [("title", .str "a"), ("estimated_minutes", .str "soon"),
                ("due_at", .int 3)]]
      = .ok resp ∧
      resp.week.map DaySchedule.date =
        [0, (0 : Int) + 1, (0 : Int) + 2, (0 : Int) + 3, (0 : Int) + 4,
         (0 : Int) + 5, (0 : Int) + 6] :=
  scheduler_total_on_safe_items (fun _ => none) 0
    [.dict [("title", .str "a"), ("estimated_minutes", .str "soon"),
            ("due_at", .int 3)]]
    (by
      intro t ht
      rw [List.mem_singleton] at ht
      subst ht
      refine ⟨_, rfl, ?_, ?_⟩
      · intro _
        exact ⟨"a", rfl⟩
      · intro n hn
        rw [show estParse (dictGet [("title", PyVal.str "a"),
          ("estimated_minutes", PyVal.str "soon"), ("due_at", PyVal.int 3)]
          "estimated_minutes") = none from rfl] at hn
        cases hn)

end Nova
